import Mathlib

/-!
Shallow embedding of the provider-bridge RPC mediation service
(`src/background/services/provider-bridge/index.ts`).

The TypeScript service keeps two mutable maps, `allowedPages` (url to
permission record) and `#pendingPermissionsRequests` (url to a stored promise
resolver), and a per-connection message listener that closes over the port.
We embed the service as a deterministic state machine: the state carries the
two maps, the set of suspended request continuations (the `await
blockUntilUserAction` points), and observation logs (posted responses,
emitted permission requests, opened windows, execution-engine calls).
External collaborators (the internal Ethereum provider's
`routeSafeRPCRequest`) are a function parameter `engine`.
-/

namespace ProviderBridge

/-- The permission record `{url, favIconUrl, state}`; `state` is a plain
string in the source (the code compares it against `"request"` and
`"allow"`). -/
structure PermissionRequest where
  url : String
  favIconUrl : String
  state : String
deriving DecidableEq

/-- A connection (a `browser.Runtime.Port`): a stable handle `pid`, plus the
origin url and favicon captured from `port.sender` at connect time. -/
structure Port where
  pid : Nat
  url : String
  favIconUrl : String
deriving DecidableEq

/-- The outbound envelope `{id, result}` built by `onMessageListener`.
The source never attaches an `error` field: the response always carries a
`result` (initialised to `[]`). -/
structure PortResponseEvent where
  id : String
  result : List String
deriving DecidableEq

/-- A request suspended at `await blockUntilUserAction`: the promise token it
waits on plus everything its continuation closed over. -/
structure WaitingReq where
  token : Nat
  port : Port
  id : String
  method : String
  params : List String
deriving DecidableEq

/-- The execution-engine collaborator
(`internalEthereumProviderService.routeSafeRPCRequest`). -/
abbrev Engine := String → List String → List String

/-- Lookup in an association list keyed by url (JS object property read). -/
def alookup {α : Type} (k : String) : List (String × α) → Option α
  | [] => none
  | (k2, v) :: rest => if k2 = k then some v else alookup k rest

/-- Removal from an association list (JS `delete obj[k]`). -/
def aerase {α : Type} (k : String) : List (String × α) → List (String × α)
  | [] => []
  | (k2, v) :: rest => if k2 = k then aerase k rest else (k2, v) :: aerase k rest

/-- Insertion into an association list (JS `obj[k] = v`, overwriting any
previous binding for `k`). -/
def ainsert {α : Type} (k : String) (v : α) (m : List (String × α)) :
    List (String × α) :=
  (k, v) :: aerase k m

/-- The whole service state.  `allowedPages`, `pending` (the private
`#pendingPermissionsRequests`, with the stored resolver represented by the
token of the promise it resolves), `waiting` (suspended listener
continuations) and `nextToken` are the mutable in-memory state;
`dbPermissions` models the IndexedDB handle `db` (which no permission
operation in the source ever writes); the remaining fields are observation
logs. -/
structure BridgeState where
  allowedPages : List (String × PermissionRequest)
  pending : List (String × Nat)
  waiting : List WaitingReq
  nextToken : Nat
  dbPermissions : List (String × PermissionRequest)
  posted : List (Nat × PortResponseEvent)
  permissionEmits : List PermissionRequest
  windows : List String
  engineCalls : List (String × List String)
deriving DecidableEq

/-- Fresh service state: both maps start empty (`= {}` field initialisers). -/
def initB : BridgeState := ⟨[], [], [], 0, [], [], [], [], []⟩

/-- `permissionCheck(url)`: true exactly when
`this.allowedPages[url]?.state === "allow"`. -/
def permissionCheck (pages : List (String × PermissionRequest))
    (url : String) : Bool :=
  match alookup url pages with
  | some r => decide (r.state = "allow")
  | none => false

/-- `routeContentScriptRPCRequest`'s method mapping: `eth_requestAccounts`
is routed to the engine as `eth_accounts`; every other method passes
through unchanged. -/
def internalMethod (method : String) : String :=
  if method = "eth_requestAccounts" then "eth_accounts" else method

/-- `permissionRequest(permissionRequest)`: creates a fresh promise
(token `s.nextToken`), emits the `permissionRequest` event, opens the
`/permission` popup, and stores the promise's resolver in
`#pendingPermissionsRequests[url]`, overwriting any resolver already stored
for that url.  Returns the new state and the promise token the caller will
await. -/
def permissionRequest (s : BridgeState) (pr : PermissionRequest) :
    BridgeState × Nat :=
  ({ s with
      permissionEmits := s.permissionEmits ++ [pr]
      windows := s.windows ++ ["/permission"]
      pending := ainsert pr.url s.nextToken s.pending
      nextToken := s.nextToken + 1 },
   s.nextToken)

/-- The tail of `onMessageListener`'s handler (after the optional
`await blockUntilUserAction`): build `response = {id, result: []}`; if
`permissionCheck(url)` then (for `eth_sendTransaction`) open the
`/signTransaction` popup and overwrite `response.result` with the engine's
answer to the routed method; finally `port.postMessage(response)`. -/
def completeRequest (engine : Engine) (s : BridgeState) (port : Port)
    (id method : String) (params : List String) : BridgeState :=
  if permissionCheck s.allowedPages port.url then
    let s1 := if method = "eth_sendTransaction"
      then { s with windows := s.windows ++ ["/signTransaction"] }
      else s
    let m := internalMethod method
    { s1 with
        engineCalls := s1.engineCalls ++ [(m, params)]
        posted := s1.posted ++ [(port.pid, ⟨id, engine m params⟩)] }
  else
    { s with posted := s.posted ++ [(port.pid, ⟨id, []⟩)] }

/-- One inbound message on a connection (the listener body): if the method
is `eth_requestAccounts` and `permissionCheck(url)` fails, run
`permissionRequest` and suspend this request's continuation on the fresh
promise; otherwise fall through to the response phase immediately. -/
def stepRequest (engine : Engine) (s : BridgeState) (port : Port)
    (id method : String) (params : List String) : BridgeState :=
  if method = "eth_requestAccounts" ∧
      permissionCheck s.allowedPages port.url = false then
    let pr : PermissionRequest := ⟨port.url, port.favIconUrl, "request"⟩
    let st := permissionRequest s pr
    { st.1 with waiting := st.1.waiting ++ [⟨st.2, port, id, method, params⟩] }
  else
    completeRequest engine s port id method params

/-- Resolving a stored promise: the (unique) continuation awaiting token `t`
wakes up and runs the response phase; a token no continuation awaits (an
overwritten resolver) resolves into the void. -/
def resolveToken (engine : Engine) (s : BridgeState) (t : Nat) : BridgeState :=
  match s.waiting.find? (fun w => w.token == t) with
  | some w =>
      completeRequest engine
        { s with waiting := s.waiting.filter (fun w2 => !(w2.token == t)) }
        w.port w.id w.method w.params
  | none => s

/-- `permissionGrant(permission)`: only if a resolver is stored for
`permission.url` — store the permission object (exactly as passed in) in
`allowedPages`, call the stored resolver, delete the map entry.  The woken
continuation runs after the synchronous body, i.e. against the updated
maps. -/
def permissionGrant (engine : Engine) (s : BridgeState)
    (perm : PermissionRequest) : BridgeState :=
  match alookup perm.url s.pending with
  | some t =>
      resolveToken engine
        { s with
            allowedPages := ainsert perm.url perm s.allowedPages
            pending := aerase perm.url s.pending } t
  | none => s

/-- `permissionDenyOrRevoke(permission)`: only if a resolver is stored for
`permission.url` — delete the url's `allowedPages` entry, call the stored
resolver, delete the map entry. -/
def permissionDenyOrRevoke (engine : Engine) (s : BridgeState)
    (perm : PermissionRequest) : BridgeState :=
  match alookup perm.url s.pending with
  | some t =>
      resolveToken engine
        { s with
            allowedPages := aerase perm.url s.allowedPages
            pending := aerase perm.url s.pending } t
  | none => s

/-- External events the service reacts to: an inbound request on a
connection (port, id, method, params), or a human decision arriving through
`permissionGranted` / `permissionDenied`. -/
inductive Action where
  | request : Port → String → String → List String → Action
  | grant : PermissionRequest → Action
  | deny : PermissionRequest → Action
deriving DecidableEq

/-- Dispatch one external event. -/
def step (engine : Engine) (s : BridgeState) : Action → BridgeState
  | Action.request port id method params =>
      stepRequest engine s port id method params
  | Action.grant perm => permissionGrant engine s perm
  | Action.deny perm => permissionDenyOrRevoke engine s perm

/-- Run the service from a fresh state over a sequence of events. -/
def run (engine : Engine) (actions : List Action) : BridgeState :=
  actions.foldl (step engine) initB

/-- A process restart: the in-memory maps are re-initialised to `{}` (field
initialisers); only the IndexedDB contents survive.  The constructor never
reads permissions back out of the database into `allowedPages`. -/
def restart (s : BridgeState) : BridgeState :=
  { initB with dbPermissions := s.dbPermissions }

/-- The (connection, identifier) pairs of all requests issued in an event
sequence. -/
def issuedPairs : List Action → List (Nat × String)
  | [] => []
  | Action.request port id _ _ :: rest => (port.pid, id) :: issuedPairs rest
  | Action.grant _ :: rest => issuedPairs rest
  | Action.deny _ :: rest => issuedPairs rest

/-- A concrete execution engine for closed scenarios: answers every call
with a result that names the routed method (so its answers are
distinguishable from the default empty result). -/
def sampleEngine : Engine := fun m _ => ["engine:" ++ m]

/-- A concrete dApp connection. -/
def dappPort : Port := ⟨1, "https://dapp.example", "fav.ico"⟩

/-- A second, distinct dApp connection on a different origin. -/
def otherPort : Port := ⟨2, "https://other.example", ""⟩

/-- Modelled from the spec: the decision payload the approval UI dispatches
on a grant (the redux slice building it is outside this subsystem's source).
Per the spec's grant semantics the origin is recorded as allowed, so the
payload carries state `"allow"` — the state `permissionCheck` tests for. -/
def allowPermission : PermissionRequest := ⟨"https://dapp.example", "fav.ico", "allow"⟩

/-- Two concurrent privileged requests from the same origin, issued before
any decision lands, followed by the single grant decision. -/
def twoRequestsThenGrant (id1 id2 : String) (p1 p2 : List String) : List Action :=
  [Action.request dappPort id1 "eth_requestAccounts" p1,
   Action.request dappPort id2 "eth_requestAccounts" p2,
   Action.grant allowPermission]

/-- Two distinct connections, each sending a request with identifier "1". -/
def twoConnectionsSameId : List Action :=
  [Action.request dappPort "1" "eth_chainId" [],
   Action.request otherPort "1" "eth_chainId" []]

/-- A privileged request followed by the human deny decision. -/
def requestThenDeny : List Action :=
  [Action.request dappPort "a" "eth_requestAccounts" [],
   Action.deny ⟨dappPort.url, "fav.ico", "request"⟩]

/-- A privileged request followed by the human grant decision. -/
def grantScenario : List Action :=
  [Action.request dappPort "a" "eth_requestAccounts" [],
   Action.grant allowPermission]

/-- A state in which the dApp origin's permission record is `allow`. -/
def allowedState : BridgeState :=
  { initB with allowedPages := [("https://dapp.example", allowPermission)] }

/-- A burst of concurrent privileged requests from one origin: one
`eth_requestAccounts` message per (identifier, params) pair, all issued
before any decision lands. -/
def requestBurst (port : Port) (reqs : List (String × List String)) :
    List Action :=
  reqs.map (fun r => Action.request port r.1 "eth_requestAccounts" r.2)

/-- The suspended continuations a burst leaves behind when the first promise
token handed out is `n`: one waiting entry per request, with consecutive
tokens. -/
def burstWaiting (port : Port) (n : Nat) :
    List (String × List String) → List WaitingReq
  | [] => []
  | r :: rest =>
      ⟨n, port, r.1, "eth_requestAccounts", r.2⟩ :: burstWaiting port (n + 1) rest

/-- The pending map a burst leaves behind: unchanged for an empty burst,
otherwise exactly one entry for the origin holding the last token handed
out (each request overwrote the previous resolver). -/
def burstPending (port : Port) (n : Nat) (reqs : List (String × List String))
    (m : List (String × Nat)) : List (String × Nat) :=
  match reqs with
  | [] => m
  | _ :: rest => ainsert port.url (n + rest.length) m

/-- The state after a burst of privileged requests from a fresh service. -/
def burstState (engine : Engine) (port : Port)
    (reqs : List (String × List String)) : BridgeState :=
  run engine (requestBurst port reqs)

/-- The state after the single human grant decision lands on a burst. -/
def grantedState (engine : Engine) (port : Port) (fav : String)
    (reqs : List (String × List String)) : BridgeState :=
  permissionGrant engine (burstState engine port reqs) ⟨port.url, fav, "allow"⟩

/-- The resolver tokens currently stored in the pending map. -/
def pendingTokens (s : BridgeState) : List Nat := s.pending.map (fun p => p.2)

/-- Every suspended continuation's token, and every stored resolver token,
was handed out before the current fresh-token counter. -/
def TokensBounded (s : BridgeState) : Prop :=
  (∀ w ∈ s.waiting, w.token < s.nextToken) ∧ ∀ p ∈ s.pending, p.2 < s.nextToken

/-- The number of pending-approval entries stored for one origin. -/
def pendingCount (s : BridgeState) (url : String) : Nat :=
  (s.pending.filter (fun p => p.1 == url)).length

/-! ### Helper lemmas -/

theorem aerase_sublist {α : Type} (k : String) (m : List (String × α)) :
    List.Sublist (aerase k m) m := by
  induction m with
  | nil => exact List.Sublist.refl []
  | cons p rest ih =>
      obtain ⟨k2, v⟩ := p
      by_cases hk : k2 = k
      · simpa [aerase, hk] using ih.cons (k2, v)
      · simpa [aerase, hk] using ih.cons₂ (k2, v)

theorem aerase_aerase {α : Type} (k : String) (m : List (String × α)) :
    aerase k (aerase k m) = aerase k m := by
  induction m with
  | nil => rfl
  | cons p rest ih =>
      obtain ⟨k2, v⟩ := p
      by_cases hk : k2 = k
      · simp [aerase, hk, ih]
      · simp [aerase, hk, ih]

theorem ainsert_ainsert {α : Type} (k : String) (v1 v2 : α)
    (m : List (String × α)) :
    ainsert k v2 (ainsert k v1 m) = ainsert k v2 m := by
  simp [ainsert, aerase, aerase_aerase]

theorem alookup_ainsert_self {α : Type} (k : String) (v : α)
    (m : List (String × α)) : alookup k (ainsert k v m) = some v := by
  simp [ainsert, alookup]

theorem alookup_mem {α : Type} {k : String} {v : α} :
    ∀ {m : List (String × α)}, alookup k m = some v → (k, v) ∈ m := by
  intro m
  induction m with
  | nil => intro h; cases h
  | cons p rest ih =>
      obtain ⟨k2, v2⟩ := p
      intro h
      simp only [alookup] at h
      by_cases hk : k2 = k
      · rw [if_pos hk] at h
        injection h with h2
        subst hk
        subst h2
        exact List.mem_cons_self _ _
      · rw [if_neg hk] at h
        exact List.mem_cons_of_mem _ (ih h)

theorem filter_aerase_self {α : Type} (k : String) (m : List (String × α)) :
    (aerase k m).filter (fun p => p.1 == k) = [] := by
  induction m with
  | nil => rfl
  | cons p rest ih =>
      obtain ⟨k2, v⟩ := p
      by_cases hk : k2 = k
      · simp [aerase, hk, ih]
      · simp [aerase, List.filter, hk, ih]

theorem alookup_aerase {α : Type} (k : String) (m : List (String × α)) :
    alookup k (aerase k m) = none := by
  induction m with
  | nil => rfl
  | cons p rest ih =>
      obtain ⟨k2, v⟩ := p
      by_cases hk : k2 = k
      · simp [aerase, hk, ih]
      · simp [aerase, alookup, hk, ih]

theorem completeRequest_waiting (engine : Engine) (s : BridgeState)
    (port : Port) (id method : String) (params : List String) :
    (completeRequest engine s port id method params).waiting = s.waiting := by
  simp only [completeRequest]
  split
  · split <;> rfl
  · rfl

theorem completeRequest_pending (engine : Engine) (s : BridgeState)
    (port : Port) (id method : String) (params : List String) :
    (completeRequest engine s port id method params).pending = s.pending := by
  simp only [completeRequest]
  split
  · split <;> rfl
  · rfl

theorem completeRequest_nextToken (engine : Engine) (s : BridgeState)
    (port : Port) (id method : String) (params : List String) :
    (completeRequest engine s port id method params).nextToken = s.nextToken := by
  simp only [completeRequest]
  split
  · split <;> rfl
  · rfl

theorem resolveToken_pending (engine : Engine) (s : BridgeState) (t : Nat) :
    (resolveToken engine s t).pending = s.pending := by
  unfold resolveToken
  split
  · rw [completeRequest_pending]
  · rfl

theorem resolveToken_nextToken (engine : Engine) (s : BridgeState) (t : Nat) :
    (resolveToken engine s t).nextToken = s.nextToken := by
  unfold resolveToken
  split
  · rw [completeRequest_nextToken]
  · rfl

theorem completeRequest_allowedPages (engine : Engine) (s : BridgeState)
    (port : Port) (id method : String) (params : List String) :
    (completeRequest engine s port id method params).allowedPages
      = s.allowedPages := by
  simp only [completeRequest]
  split
  · split <;> rfl
  · rfl

theorem resolveToken_allowedPages (engine : Engine) (s : BridgeState) (t : Nat) :
    (resolveToken engine s t).allowedPages = s.allowedPages := by
  unfold resolveToken
  split
  · rw [completeRequest_allowedPages]
  · rfl

theorem completeRequest_dbPermissions (engine : Engine) (s : BridgeState)
    (port : Port) (id method : String) (params : List String) :
    (completeRequest engine s port id method params).dbPermissions
      = s.dbPermissions := by
  simp only [completeRequest]
  split
  · split <;> rfl
  · rfl

theorem resolveToken_dbPermissions (engine : Engine) (s : BridgeState) (t : Nat) :
    (resolveToken engine s t).dbPermissions = s.dbPermissions := by
  unfold resolveToken
  split
  · rw [completeRequest_dbPermissions]
  · rfl

theorem step_dbPermissions (engine : Engine) (s : BridgeState) (a : Action) :
    (step engine s a).dbPermissions = s.dbPermissions := by
  cases a with
  | request port id method params =>
      simp only [step, stepRequest]
      split
      · rfl
      · rw [completeRequest_dbPermissions]
  | grant perm =>
      simp only [step, permissionGrant]
      split
      · rw [resolveToken_dbPermissions]
      · rfl
  | deny perm =>
      simp only [step, permissionDenyOrRevoke]
      split
      · rw [resolveToken_dbPermissions]
      · rfl

theorem foldl_dbPermissions (engine : Engine) (actions : List Action) :
    ∀ s : BridgeState,
      (actions.foldl (step engine) s).dbPermissions = s.dbPermissions := by
  induction actions with
  | nil => intro s; rfl
  | cons a rest ih =>
      intro s
      rw [List.foldl_cons, ih, step_dbPermissions]

theorem aerase_ainsert_self {α : Type} (k : String) (v : α)
    (m : List (String × α)) : aerase k (ainsert k v m) = aerase k m := by
  simp [ainsert, aerase, aerase_aerase]

/-! ### Token freshness and stranded continuations

`nextToken` only ever grows and every stored token was handed out below it,
so a resolver token that has been overwritten (it is no longer in the
pending map) can never be stored again: the continuation awaiting it stays
suspended under every subsequent event. -/

theorem tokensBounded_completeRequest {engine : Engine} {s : BridgeState}
    {port : Port} {id method : String} {params : List String}
    (h : TokensBounded s) :
    TokensBounded (completeRequest engine s port id method params) := by
  constructor
  · intro w hw
    rw [completeRequest_waiting] at hw
    rw [completeRequest_nextToken]
    exact h.1 w hw
  · intro p hp
    rw [completeRequest_pending] at hp
    rw [completeRequest_nextToken]
    exact h.2 p hp

theorem tokensBounded_resolveToken {engine : Engine} {s : BridgeState}
    {t : Nat} (h : TokensBounded s) : TokensBounded (resolveToken engine s t) := by
  unfold resolveToken
  split
  · apply tokensBounded_completeRequest
    constructor
    · intro w hw
      exact h.1 w (List.mem_of_mem_filter hw)
    · exact h.2
  · exact h

theorem tokensBounded_step (engine : Engine) (s : BridgeState) (a : Action)
    (h : TokensBounded s) : TokensBounded (step engine s a) := by
  cases a with
  | request port id method params =>
      simp only [step, stepRequest, permissionRequest, ainsert]
      split
      · constructor
        · intro w hw
          rcases List.mem_append.mp hw with hw | hw
          · exact Nat.lt_succ_of_lt (h.1 w hw)
          · simp only [List.mem_singleton] at hw
            subst hw
            exact Nat.lt_succ_self _
        · intro p hp
          rcases List.mem_cons.mp hp with hp | hp
          · subst hp
            exact Nat.lt_succ_self _
          · exact Nat.lt_succ_of_lt (h.2 p ((aerase_sublist _ _).subset hp))
      · exact tokensBounded_completeRequest h
  | grant perm =>
      simp only [step, permissionGrant]
      split
      · apply tokensBounded_resolveToken
        exact ⟨h.1, fun p hp => h.2 p ((aerase_sublist _ _).subset hp)⟩
      · exact h
  | deny perm =>
      simp only [step, permissionDenyOrRevoke]
      split
      · apply tokensBounded_resolveToken
        exact ⟨h.1, fun p hp => h.2 p ((aerase_sublist _ _).subset hp)⟩
      · exact h

theorem stranded_step (engine : Engine) (s : BridgeState) (a : Action)
    (w : WaitingReq) (hb : TokensBounded s) (hw : w ∈ s.waiting)
    (hp : w.token ∉ pendingTokens s) :
    w ∈ (step engine s a).waiting ∧
      w.token ∉ pendingTokens (step engine s a) := by
  cases a with
  | request port id method params =>
      simp only [step, stepRequest, permissionRequest, ainsert]
      split
      · constructor
        · exact List.mem_append_left _ hw
        · intro hc
          simp only [pendingTokens, List.map_cons, List.mem_cons] at hc
          rcases hc with hc | hc
          · exact absurd hc (Nat.ne_of_lt (hb.1 w hw))
          · apply hp
            simp only [pendingTokens, List.mem_map] at hc ⊢
            obtain ⟨p, hp2, hpe⟩ := hc
            exact ⟨p, (aerase_sublist _ _).subset hp2, hpe⟩
      · constructor
        · rw [completeRequest_waiting]
          exact hw
        · simp only [pendingTokens, completeRequest_pending]
          simpa [pendingTokens] using hp
  | grant perm =>
      simp only [step, permissionGrant]
      split
      next t hl =>
        have ht : t ∈ pendingTokens s := by
          simp only [pendingTokens, List.mem_map]
          exact ⟨(perm.url, t), alookup_mem hl, rfl⟩
        have hwt : w.token ≠ t := by
          intro he
          apply hp
          rw [he]
          exact ht
        unfold resolveToken
        split
        · constructor
          · rw [completeRequest_waiting]
            refine List.mem_filter.mpr ⟨hw, ?_⟩
            simp [hwt]
          · simp only [pendingTokens, completeRequest_pending]
            intro hc
            apply hp
            simp only [pendingTokens, List.mem_map] at hc ⊢
            obtain ⟨p, hp2, hpe⟩ := hc
            exact ⟨p, (aerase_sublist _ _).subset hp2, hpe⟩
        · constructor
          · exact hw
          · intro hc
            apply hp
            simp only [pendingTokens, List.mem_map] at hc ⊢
            obtain ⟨p, hp2, hpe⟩ := hc
            exact ⟨p, (aerase_sublist _ _).subset hp2, hpe⟩
      next => exact ⟨hw, hp⟩
  | deny perm =>
      simp only [step, permissionDenyOrRevoke]
      split
      next t hl =>
        have ht : t ∈ pendingTokens s := by
          simp only [pendingTokens, List.mem_map]
          exact ⟨(perm.url, t), alookup_mem hl, rfl⟩
        have hwt : w.token ≠ t := by
          intro he
          apply hp
          rw [he]
          exact ht
        unfold resolveToken
        split
        · constructor
          · rw [completeRequest_waiting]
            refine List.mem_filter.mpr ⟨hw, ?_⟩
            simp [hwt]
          · simp only [pendingTokens, completeRequest_pending]
            intro hc
            apply hp
            simp only [pendingTokens, List.mem_map] at hc ⊢
            obtain ⟨p, hp2, hpe⟩ := hc
            exact ⟨p, (aerase_sublist _ _).subset hp2, hpe⟩
        · constructor
          · exact hw
          · intro hc
            apply hp
            simp only [pendingTokens, List.mem_map] at hc ⊢
            obtain ⟨p, hp2, hpe⟩ := hc
            exact ⟨p, (aerase_sublist _ _).subset hp2, hpe⟩
      next => exact ⟨hw, hp⟩

theorem stranded_foldl (engine : Engine) (more : List Action) :
    ∀ (s : BridgeState) (w : WaitingReq), TokensBounded s → w ∈ s.waiting →
      w.token ∉ pendingTokens s →
      w ∈ (more.foldl (step engine) s).waiting := by
  induction more with
  | nil =>
      intro s w _ hw _
      exact hw
  | cons a rest ih =>
      intro s w hb hw hp
      rw [List.foldl_cons]
      obtain ⟨hw2, hp2⟩ := stranded_step engine s a w hb hw hp
      exact ih _ w (tokensBounded_step engine s a hb) hw2 hp2

/-! ### At most one pending-approval entry per origin, at any time -/

theorem pendingCount_aerase_le (url k : String) (m : List (String × Nat)) :
    ((aerase k m).filter (fun p => p.1 == url)).length
      ≤ (m.filter (fun p => p.1 == url)).length :=
  List.Sublist.length_le ((aerase_sublist k m).filter _)

theorem count_ainsert_le_one (k url : String) (v : Nat)
    (m : List (String × Nat))
    (h : (m.filter (fun p => p.1 == url)).length ≤ 1) :
    ((ainsert k v m).filter (fun p => p.1 == url)).length ≤ 1 := by
  by_cases hk : k = url
  · subst hk
    simp [ainsert, List.filter_cons, filter_aerase_self]
  · have hk2 : (((k, v) : String × Nat).1 == url) = false := by
      simp [hk]
    rw [ainsert, List.filter_cons, hk2]
    simp only [Bool.false_eq_true, if_false]
    exact le_trans (pendingCount_aerase_le url k m) h

theorem pendingCount_step (engine : Engine) (s : BridgeState) (a : Action)
    (url : String) (h : pendingCount s url ≤ 1) :
    pendingCount (step engine s a) url ≤ 1 := by
  cases a with
  | request port id method params =>
      simp only [step, stepRequest]
      split
      · simp only [permissionRequest, pendingCount]
        exact count_ainsert_le_one _ _ _ _ h
      · simp only [pendingCount, completeRequest_pending]
        exact h
  | grant perm =>
      simp only [step, permissionGrant]
      split
      · simp only [pendingCount, resolveToken_pending]
        exact le_trans (pendingCount_aerase_le url perm.url s.pending) h
      · exact h
  | deny perm =>
      simp only [step, permissionDenyOrRevoke]
      split
      · simp only [pendingCount, resolveToken_pending]
        exact le_trans (pendingCount_aerase_le url perm.url s.pending) h
      · exact h

theorem pendingCount_run (engine : Engine) (actions : List Action)
    (url : String) : pendingCount (run engine actions) url ≤ 1 := by
  have aux : ∀ (acts : List Action) (s : BridgeState), pendingCount s url ≤ 1 →
      pendingCount (acts.foldl (step engine) s) url ≤ 1 := by
    intro acts
    induction acts with
    | nil =>
        intro s h
        exact h
    | cons a rest ih =>
        intro s h
        rw [List.foldl_cons]
        exact ih _ (pendingCount_step engine s a url h)
  exact aux actions initB (by simp [pendingCount, initB])

/-! ### Running a burst of concurrent privileged requests -/

theorem burstWaiting_append (port : Port) (xs ys : List (String × List String)) :
    ∀ n, burstWaiting port n (xs ++ ys)
      = burstWaiting port n xs ++ burstWaiting port (n + xs.length) ys := by
  induction xs with
  | nil =>
      intro n
      simp [burstWaiting]
  | cons x xs ih =>
      intro n
      have harith : n + 1 + xs.length = n + (xs.length + 1) := by omega
      simp only [List.cons_append, burstWaiting, List.append_eq, ih (n + 1),
        List.length_cons, harith]

theorem burstWaiting_token_lt (port : Port) :
    ∀ (xs : List (String × List String)) (n : Nat),
      ∀ w ∈ burstWaiting port n xs, w.token < n + xs.length := by
  intro xs
  induction xs with
  | nil =>
      intro n w hw
      cases hw
  | cons x xs ih =>
      intro n w hw
      rcases List.mem_cons.mp hw with hw | hw
      · subst hw
        show n < n + (xs.length + 1)
        omega
      · have := ih (n + 1) w hw
        show w.token < n + (xs.length + 1)
        omega

theorem burstWaiting_ids (port : Port) :
    ∀ (xs : List (String × List String)) (n : Nat),
      (burstWaiting port n xs).map (fun w => w.id) = xs.map (fun r => r.1) := by
  intro xs
  induction xs with
  | nil =>
      intro n
      rfl
  | cons x xs ih =>
      intro n
      simp [burstWaiting, ih]

theorem burstPending_shift (port : Port) (n : Nat)
    (reqs : List (String × List String)) (r : String × List String)
    (m : List (String × Nat)) :
    burstPending port (n + 1) reqs (ainsert port.url n m)
      = burstPending port n (r :: reqs) m := by
  cases reqs with
  | nil => simp [burstPending]
  | cons r1 reqs =>
      simp only [burstPending, ainsert_ainsert, List.length_cons]
      congr 1
      omega

theorem burstPending_concat (port : Port) (n : Nat)
    (front : List (String × List String)) (x : String × List String)
    (m : List (String × Nat)) :
    burstPending port n (front ++ [x]) m
      = ainsert port.url (n + front.length) m := by
  cases front with
  | nil => simp [burstPending]
  | cons f front =>
      simp only [List.cons_append, burstPending]
      congr 1
      simp [List.length_append]

theorem find_filter_last_token (t : Nat) (wL : WaitingReq)
    (ht : wL.token = t) :
    ∀ (xs : List WaitingReq), (∀ w ∈ xs, (w.token == t) = false) →
      ((xs ++ [wL]).find? (fun w => w.token == t) = some wL) ∧
      ((xs ++ [wL]).filter (fun w2 => !(w2.token == t)) = xs) := by
  intro xs
  induction xs with
  | nil =>
      intro _
      constructor
      · simp [List.find?_cons, ht]
      · simp [List.filter_cons, ht]
  | cons x xs ih =>
      intro hall
      have hx : (x.token == t) = false := hall x (List.mem_cons_self _ _)
      obtain ⟨ihf, ihl⟩ := ih (fun z hz => hall z (List.mem_cons_of_mem _ hz))
      constructor
      · simpa [List.find?_cons, hx] using ihf
      · simpa [List.filter_cons, hx] using ihl

theorem requestBurst_run (engine : Engine) (port : Port) :
    ∀ (reqs : List (String × List String)) (s : BridgeState),
      permissionCheck s.allowedPages port.url = false →
      (requestBurst port reqs).foldl (step engine) s
        = { s with
            permissionEmits := s.permissionEmits ++ reqs.map
              (fun _ => (⟨port.url, port.favIconUrl, "request"⟩ : PermissionRequest))
            windows := s.windows ++ reqs.map (fun _ => "/permission")
            pending := burstPending port s.nextToken reqs s.pending
            waiting := s.waiting ++ burstWaiting port s.nextToken reqs
            nextToken := s.nextToken + reqs.length } := by
  intro reqs
  induction reqs with
  | nil =>
      intro s hc
      simp [requestBurst, burstPending, burstWaiting]
  | cons r reqs ih =>
      intro s hc
      have hstep : step engine s (Action.request port r.1 "eth_requestAccounts" r.2)
          = { s with
              permissionEmits := s.permissionEmits
                ++ [⟨port.url, port.favIconUrl, "request"⟩]
              windows := s.windows ++ ["/permission"]
              pending := ainsert port.url s.nextToken s.pending
              waiting := s.waiting
                ++ [⟨s.nextToken, port, r.1, "eth_requestAccounts", r.2⟩]
              nextToken := s.nextToken + 1 } := by
        simp [step, stepRequest, permissionRequest, hc]
      rw [show requestBurst port (r :: reqs)
          = Action.request port r.1 "eth_requestAccounts" r.2
              :: requestBurst port reqs from rfl]
      rw [List.foldl_cons, hstep, ih { s with
          permissionEmits := s.permissionEmits
            ++ [⟨port.url, port.favIconUrl, "request"⟩]
          windows := s.windows ++ ["/permission"]
          pending := ainsert port.url s.nextToken s.pending
          waiting := s.waiting
            ++ [⟨s.nextToken, port, r.1, "eth_requestAccounts", r.2⟩]
          nextToken := s.nextToken + 1 } hc]
      simp only [BridgeState.mk.injEq]
      refine ⟨trivial, ?_, ?_, ?_, trivial, trivial, ?_, ?_, trivial⟩
      · exact burstPending_shift port s.nextToken reqs r s.pending
      · simp [burstWaiting]
      · simp only [List.length_cons]
        omega
      · simp
      · simp

/-- The exact state after a nonempty burst of concurrent privileged
requests from a fresh service followed by the single grant decision:
the origin is recorded as allowed, the pending map is empty again, only
the last request was answered (with the engine's `eth_accounts` result),
and the earlier requests' continuations are still suspended. -/
theorem grantedState_eq (engine : Engine) (port : Port) (fav : String)
    (front : List (String × List String)) (idL : String) (pL : List String) :
    grantedState engine port fav (front ++ [(idL, pL)])
      = { allowedPages := [(port.url, ⟨port.url, fav, "allow"⟩)]
          pending := []
          waiting := burstWaiting port 0 front
          nextToken := front.length + 1
          dbPermissions := []
          posted := [(port.pid, ⟨idL, engine "eth_accounts" pL⟩)]
          permissionEmits := (front ++ [(idL, pL)]).map
            (fun _ => ⟨port.url, port.favIconUrl, "request"⟩)
          windows := (front ++ [(idL, pL)]).map (fun _ => "/permission")
          engineCalls := [("eth_accounts", pL)] } := by
  have hw0 : ∀ w ∈ burstWaiting port 0 front,
      (w.token == front.length) = false := by
    intro w hw
    have hlt := burstWaiting_token_lt port front 0 w hw
    have hne : w.token ≠ front.length := by omega
    simpa using hne
  obtain ⟨hfind, hfilt⟩ := find_filter_last_token front.length
    ⟨front.length, port, idL, "eth_requestAccounts", pL⟩ rfl
    (burstWaiting port 0 front) hw0
  have hB : burstState engine port (front ++ [(idL, pL)])
      = { allowedPages := []
          pending := [(port.url, front.length)]
          waiting := burstWaiting port 0 front
            ++ [⟨front.length, port, idL, "eth_requestAccounts", pL⟩]
          nextToken := front.length + 1
          dbPermissions := []
          posted := []
          permissionEmits := (front ++ [(idL, pL)]).map
            (fun _ => ⟨port.url, port.favIconUrl, "request"⟩)
          windows := (front ++ [(idL, pL)]).map (fun _ => "/permission")
          engineCalls := [] } := by
    unfold burstState run
    rw [requestBurst_run engine port (front ++ [(idL, pL)]) initB rfl]
    simp [initB, burstPending_concat, burstWaiting_append, burstWaiting,
      ainsert, aerase, List.length_append]
  unfold grantedState
  rw [hB]
  simp [permissionGrant, resolveToken, completeRequest, permissionCheck,
    internalMethod, alookup, ainsert, aerase, hfind, hfilt]

/-! ### Correlation invariant (used for C2)

Every response the service ever posts goes to a connection that issued a
request with exactly that identifier, and so does every suspended
continuation. -/

def PostedOK (s : BridgeState) (issued : List (Nat × String)) : Prop :=
  (∀ p ∈ s.posted, (p.1, p.2.id) ∈ issued) ∧
  (∀ w ∈ s.waiting, (w.port.pid, w.id) ∈ issued)

theorem postedOK_mono {s : BridgeState} {issued issued2 : List (Nat × String)}
    (h : PostedOK s issued) (hsub : issued ⊆ issued2) : PostedOK s issued2 :=
  ⟨fun p hp => hsub (h.1 p hp), fun w hw => hsub (h.2 w hw)⟩

theorem postedOK_completeRequest {engine : Engine} {s : BridgeState}
    {port : Port} {id method : String} {params : List String}
    {issued : List (Nat × String)}
    (h : PostedOK s issued) (hin : (port.pid, id) ∈ issued) :
    PostedOK (completeRequest engine s port id method params) issued := by
  simp only [completeRequest]
  split
  · split
    · refine ⟨?_, h.2⟩
      intro p hp
      rcases List.mem_append.mp hp with hp | hp
      · exact h.1 p hp
      · simp only [List.mem_singleton] at hp
        subst hp
        exact hin
    · refine ⟨?_, h.2⟩
      intro p hp
      rcases List.mem_append.mp hp with hp | hp
      · exact h.1 p hp
      · simp only [List.mem_singleton] at hp
        subst hp
        exact hin
  · refine ⟨?_, h.2⟩
    intro p hp
    rcases List.mem_append.mp hp with hp | hp
    · exact h.1 p hp
    · simp only [List.mem_singleton] at hp
      subst hp
      exact hin

theorem postedOK_resolveToken {engine : Engine} {s : BridgeState} {t : Nat}
    {issued : List (Nat × String)} (h : PostedOK s issued) :
    PostedOK (resolveToken engine s t) issued := by
  unfold resolveToken
  split
  next w hfind =>
    have hw : w ∈ s.waiting := List.mem_of_find?_eq_some hfind
    refine postedOK_completeRequest ⟨h.1, ?_⟩ (h.2 w hw)
    intro w2 hw2
    exact h.2 w2 (List.mem_of_mem_filter hw2)
  next => exact h

theorem postedOK_permissionGrant {engine : Engine} {s : BridgeState}
    {perm : PermissionRequest} {issued : List (Nat × String)}
    (h : PostedOK s issued) :
    PostedOK (permissionGrant engine s perm) issued := by
  unfold permissionGrant
  split
  next t hl => exact postedOK_resolveToken ⟨h.1, h.2⟩
  next => exact h

theorem postedOK_permissionDenyOrRevoke {engine : Engine} {s : BridgeState}
    {perm : PermissionRequest} {issued : List (Nat × String)}
    (h : PostedOK s issued) :
    PostedOK (permissionDenyOrRevoke engine s perm) issued := by
  unfold permissionDenyOrRevoke
  split
  next t hl => exact postedOK_resolveToken ⟨h.1, h.2⟩
  next => exact h

theorem postedOK_stepRequest {engine : Engine} {s : BridgeState} {port : Port}
    {id method : String} {params : List String} {issued : List (Nat × String)}
    (h : PostedOK s issued) (hin : (port.pid, id) ∈ issued) :
    PostedOK (stepRequest engine s port id method params) issued := by
  simp only [stepRequest, permissionRequest]
  split
  · refine ⟨h.1, ?_⟩
    intro w hw
    rcases List.mem_append.mp hw with hw | hw
    · exact h.2 w hw
    · simp only [List.mem_singleton] at hw
      subst hw
      exact hin
  · exact postedOK_completeRequest h hin

theorem postedOK_run_aux (engine : Engine) (actions : List Action) :
    ∀ (s : BridgeState) (issued : List (Nat × String)), PostedOK s issued →
      PostedOK (actions.foldl (step engine) s) (issued ++ issuedPairs actions) := by
  induction actions with
  | nil =>
      intro s issued h
      simpa [issuedPairs] using h
  | cons a rest ih =>
      intro s issued h
      rw [List.foldl_cons]
      cases a with
      | request port id method params =>
          have h1 : PostedOK (step engine s (Action.request port id method params))
              (issued ++ [(port.pid, id)]) := by
            refine postedOK_stepRequest
              (postedOK_mono h (fun x hx => List.mem_append_left _ hx)) ?_
            exact List.mem_append_right _ (List.mem_singleton.mpr rfl)
          have h2 := ih _ _ h1
          rw [List.append_assoc] at h2
          simpa [issuedPairs] using h2
      | grant perm =>
          have h1 : PostedOK (step engine s (Action.grant perm)) issued :=
            postedOK_permissionGrant h
          simpa [issuedPairs] using ih _ _ h1
      | deny perm =>
          have h1 : PostedOK (step engine s (Action.deny perm)) issued :=
            postedOK_permissionDenyOrRevoke h
          simpa [issuedPairs] using ih _ _ h1

/-! ### Claim theorems -/

/-- C1 counterexample: two concurrent privileged requests (ids "a" and "b")
from the same origin, both issued before the decision, then a single grant.
The approval UI is invoked twice, not once (`permissionEmits.length = 2`,
two `/permission` windows), and the two requests do not resolve identically:
only the second request ever receives a response, while the first one's
continuation is still suspended after the decision landed. -/
theorem C1_counterexample :
    (run sampleEngine (twoRequestsThenGrant "a" "b" [] [])).permissionEmits.length = 2 ∧
    (run sampleEngine (twoRequestsThenGrant "a" "b" [] [])).windows
      = ["/permission", "/permission"] ∧
    (run sampleEngine (twoRequestsThenGrant "a" "b" [] [])).posted
      = [(1, ⟨"b", ["engine:eth_accounts"]⟩)] ∧
    (run sampleEngine (twoRequestsThenGrant "a" "b" [] [])).waiting.map
      (fun w => w.id) = ["a"] := by
  decide

/-- C1 amended: for any origin and any number N = front.length + 1 of
concurrent privileged requests issued from a fresh service before the single
decision lands: the approval UI is invoked once per request (N invocations,
not one); at any time — i.e. after every possible event sequence — the
pending map holds at most one resolver entry per origin (each new request
overwrites the previous resolver); no request is answered before the
decision; and when the single grant lands, only the most recently suspended
request resolves (with the engine's answer to the routed `eth_accounts`)
while the earlier N - 1 requests' continuations remain suspended, and remain
suspended under every subsequent event sequence — they never resolve. -/
theorem C1_amended (engine : Engine) (port : Port) (fav : String)
    (front : List (String × List String)) (idL : String) (pL : List String) :
    (burstState engine port (front ++ [(idL, pL)])).permissionEmits.length
      = front.length + 1 ∧
    (burstState engine port (front ++ [(idL, pL)])).posted = [] ∧
    (∀ (actions : List Action) (url2 : String),
      pendingCount (run engine actions) url2 ≤ 1) ∧
    (grantedState engine port fav (front ++ [(idL, pL)])).posted
      = [(port.pid, ⟨idL, engine "eth_accounts" pL⟩)] ∧
    (grantedState engine port fav (front ++ [(idL, pL)])).waiting.map
      (fun w => w.id) = front.map (fun r => r.1) ∧
    ∀ (more : List Action) (w : WaitingReq),
      w ∈ (grantedState engine port fav (front ++ [(idL, pL)])).waiting →
      w ∈ (more.foldl (step engine)
        (grantedState engine port fav (front ++ [(idL, pL)]))).waiting := by
  refine ⟨?_, ?_, ?_, ?_, ?_, ?_⟩
  · unfold burstState run
    rw [requestBurst_run engine port (front ++ [(idL, pL)]) initB rfl]
    simp [initB]
  · unfold burstState run
    rw [requestBurst_run engine port (front ++ [(idL, pL)]) initB rfl]
    simp [initB]
  · intro actions url2
    exact pendingCount_run engine actions url2
  · rw [grantedState_eq]
  · rw [grantedState_eq]
    exact burstWaiting_ids port front 0
  · intro more w hw
    rw [grantedState_eq] at hw ⊢
    refine stranded_foldl engine more _ w ⟨?_, ?_⟩ hw ?_
    · intro w2 hw2
      have := burstWaiting_token_lt port front 0 w2 hw2
      show w2.token < front.length + 1
      omega
    · intro p hp
      simp at hp
    · simp [pendingTokens]

/-- C1 witness: the amended statement applied with two concurrent requests
(ids "a" then "b") from the sample dApp origin; the request with id "a" is
still suspended after the grant, and stays suspended after a further
unrelated request is processed. -/
theorem C1_amended_witness :
    ((⟨0, dappPort, "a", "eth_requestAccounts", []⟩ : WaitingReq) ∈
      (grantedState sampleEngine dappPort "fav.ico"
        ([("a", [])] ++ [("b", [])])).waiting) ∧
    ((⟨0, dappPort, "a", "eth_requestAccounts", []⟩ : WaitingReq) ∈
      ([Action.request dappPort "c" "eth_chainId" []].foldl (step sampleEngine)
        (grantedState sampleEngine dappPort "fav.ico"
          ([("a", [])] ++ [("b", [])]))).waiting) :=
  ⟨by decide,
   (C1_amended sampleEngine dappPort "fav.ico" [("a", [])] "b" []).2.2.2.2.2
     [Action.request dappPort "c" "eth_chainId" []]
     ⟨0, dappPort, "a", "eth_requestAccounts", []⟩ (by decide)⟩

/-- C2: every response the service posts is delivered on the connection that
issued a request with exactly that identifier — responses are never
cross-delivered to another connection and never broadcast. -/
theorem C2_responses_correlated (engine : Engine) (actions : List Action)
    (c : Nat) (r : PortResponseEvent)
    (hmem : (c, r) ∈ (run engine actions).posted) :
    (c, r.id) ∈ issuedPairs actions := by
  have h0 : PostedOK initB [] := by
    constructor
    · intro p hp
      cases hp
    · intro w hw
      cases hw
  have h := postedOK_run_aux engine actions initB [] h0
  rw [List.nil_append] at h
  exact h.1 (c, r) hmem

/-- C2 witness: in the two-connection scenario where both connections send a
request with identifier "1", connection 1's response is correlated to a
request that connection 1 itself issued with identifier "1". -/
theorem C2_responses_correlated_witness :
    ((1 : Nat), (⟨"1", []⟩ : PortResponseEvent)) ∈
        (run sampleEngine twoConnectionsSameId).posted ∧
    ((1 : Nat), "1") ∈ issuedPairs twoConnectionsSameId :=
  ⟨by decide,
   C2_responses_correlated sampleEngine twoConnectionsSameId 1 ⟨"1", []⟩ (by decide)⟩

/-- C3 counterexample: an `eth_sendTransaction` request from an origin with
no permission record never reaches the approval gate (no `permissionRequest`
emission, no `/permission` window), the execution engine is not called, and
the caller receives `{id, result: []}` — an empty-result success envelope,
not a capability-denied error. -/
theorem C3_counterexample :
    (run sampleEngine [Action.request dappPort "x" "eth_sendTransaction" ["tx"]]).permissionEmits = [] ∧
    (run sampleEngine [Action.request dappPort "x" "eth_sendTransaction" ["tx"]]).windows = [] ∧
    (run sampleEngine [Action.request dappPort "x" "eth_sendTransaction" ["tx"]]).engineCalls = [] ∧
    (run sampleEngine [Action.request dappPort "x" "eth_sendTransaction" ["tx"]]).posted
      = [(1, ⟨"x", []⟩)] := by
  decide

/-- C3 amended: only `eth_requestAccounts` invokes the approval gate.  Any
other method — including the privileged `eth_sendTransaction` — sent by an
origin whose permission record is not `allow` is answered immediately with
an empty-result success envelope carrying the request's identifier; the
execution engine is not called and no approval round starts. -/
theorem C3_amended (engine : Engine) (s : BridgeState) (port : Port)
    (id method : String) (params : List String)
    (hm : method ≠ "eth_requestAccounts")
    (hc : permissionCheck s.allowedPages port.url = false) :
    (stepRequest engine s port id method params).engineCalls = s.engineCalls ∧
    (stepRequest engine s port id method params).posted
      = s.posted ++ [(port.pid, ⟨id, []⟩)] ∧
    (stepRequest engine s port id method params).permissionEmits
      = s.permissionEmits ∧
    (stepRequest engine s port id method params).windows = s.windows := by
  refine ⟨?_, ?_, ?_, ?_⟩ <;> simp [stepRequest, completeRequest, hm, hc]

/-- C3 witness: the amended statement instantiated for an
`eth_sendTransaction` request on a fresh service state. -/
theorem C3_amended_witness :
    ("eth_sendTransaction" ≠ "eth_requestAccounts") ∧
    permissionCheck initB.allowedPages dappPort.url = false ∧
    ((stepRequest sampleEngine initB dappPort "x" "eth_sendTransaction" ["tx"]).engineCalls
        = initB.engineCalls ∧
      (stepRequest sampleEngine initB dappPort "x" "eth_sendTransaction" ["tx"]).posted
        = initB.posted ++ [(dappPort.pid, ⟨"x", []⟩)] ∧
      (stepRequest sampleEngine initB dappPort "x" "eth_sendTransaction" ["tx"]).permissionEmits
        = initB.permissionEmits ∧
      (stepRequest sampleEngine initB dappPort "x" "eth_sendTransaction" ["tx"]).windows
        = initB.windows) :=
  ⟨by decide, by decide,
   C3_amended sampleEngine initB dappPort "x" "eth_sendTransaction" ["tx"]
     (by decide) (by decide)⟩

/-- C4 counterexample: an `eth_chainId` request from an origin with no
permission record at all is NOT forwarded to the execution engine (the
engine, which would have answered `["engine:eth_chainId"]`, is never
called); the caller instead receives the empty-result envelope
`{id: "c", result: []}`. -/
theorem C4_counterexample :
    (run sampleEngine [Action.request dappPort "c" "eth_chainId" []]).engineCalls = [] ∧
    (run sampleEngine [Action.request dappPort "c" "eth_chainId" []]).posted
      = [(1, ⟨"c", []⟩)] ∧
    sampleEngine "eth_chainId" [] = ["engine:eth_chainId"] := by
  decide

/-- C4 amended: an open-method request (`eth_chainId`) from an origin with
no permission record is resolved immediately and without any approval round
(no `permissionRequest` emission, no window), but it is not forwarded to the
execution engine: the response is the empty-result envelope `{id, result: []}`. -/
theorem C4_amended (engine : Engine) (port : Port) (id : String)
    (params : List String) :
    (run engine [Action.request port id "eth_chainId" params]).permissionEmits = [] ∧
    (run engine [Action.request port id "eth_chainId" params]).windows = [] ∧
    (run engine [Action.request port id "eth_chainId" params]).engineCalls = [] ∧
    (run engine [Action.request port id "eth_chainId" params]).posted
      = [(port.pid, ⟨id, []⟩)] := by
  refine ⟨?_, ?_, ?_, ?_⟩ <;>
    simp [run, step, stepRequest, completeRequest, permissionCheck, alookup, initB]

/-- C5 counterexample: a privileged request with identifier "a" suspended on
an approval round receives, when the human denies, the envelope
`{id: "a", result: []}` — a success-shaped envelope with an empty result.
No error envelope exists anywhere in this service: the outbound envelope
type built by the source has no error field. -/
theorem C5_counterexample :
    (run sampleEngine requestThenDeny).posted = [(1, ⟨"a", []⟩)] := by
  decide

/-- C5 amended: when the human deny decision lands for an origin with an
outstanding approval round, the request waiting on that round is answered
with its original identifier and an empty result (`{id, result: []}`), and
the origin is left with no permission record; no capability-denied error is
ever produced (responses carry only a `result`). -/
theorem C5_amended (engine : Engine) (port : Port) (id : String)
    (params : List String) (fav st : String) :
    (run engine [Action.request port id "eth_requestAccounts" params,
        Action.deny ⟨port.url, fav, st⟩]).posted
      = [(port.pid, ⟨id, []⟩)] ∧
    alookup port.url
      (run engine [Action.request port id "eth_requestAccounts" params,
        Action.deny ⟨port.url, fav, st⟩]).allowedPages = none := by
  constructor <;>
    simp [run, step, stepRequest, completeRequest, permissionRequest,
      permissionDenyOrRevoke, resolveToken, permissionCheck, alookup,
      ainsert, aerase, initB]

/-- C6 counterexample: after the deny decision lands for the origin with an
outstanding approval round, that origin has NO permission record at all
(lookup yields `none`): the record is reset to absent rather than stored
with a `denied` state. -/
theorem C6_counterexample :
    alookup dappPort.url (run sampleEngine requestThenDeny).allowedPages = none ∧
    (run sampleEngine requestThenDeny).allowedPages = [] := by
  decide

/-- C6 amended: whenever a deny decision lands for an origin with an
outstanding pending approval, `permissionDenyOrRevoke` deletes that origin's
entry from `allowedPages`: afterwards the origin's permission record is
absent, not a record in a `denied` state. -/
theorem C6_amended (engine : Engine) (s : BridgeState)
    (perm : PermissionRequest) (t : Nat)
    (hp : alookup perm.url s.pending = some t) :
    alookup perm.url (permissionDenyOrRevoke engine s perm).allowedPages = none := by
  simp only [permissionDenyOrRevoke, hp]
  rw [resolveToken_allowedPages]
  exact alookup_aerase perm.url s.allowedPages

/-- C6 witness: the amended statement instantiated on the state reached by a
single suspended privileged request. -/
theorem C6_amended_witness :
    alookup dappPort.url
      (run sampleEngine [Action.request dappPort "a" "eth_requestAccounts" []]).pending
      = some 0 ∧
    alookup dappPort.url
      (permissionDenyOrRevoke sampleEngine
        (run sampleEngine [Action.request dappPort "a" "eth_requestAccounts" []])
        ⟨dappPort.url, "fav.ico", "request"⟩).allowedPages = none :=
  ⟨by decide,
   C6_amended sampleEngine
     (run sampleEngine [Action.request dappPort "a" "eth_requestAccounts" []])
     ⟨dappPort.url, "fav.ico", "request"⟩ 0 (by decide)⟩

/-- C7 counterexample: for an origin whose permission record is `allow`, a
privileged `eth_sendTransaction` request does open a UI window (the
`/signTransaction` popup) before execution — so "no UI involved" fails for
the transaction-submission member of the privileged class. -/
theorem C7_counterexample :
    permissionCheck allowedState.allowedPages dappPort.url = true ∧
    (stepRequest sampleEngine allowedState dappPort "b" "eth_sendTransaction" ["tx"]).windows
      = ["/signTransaction"] := by
  decide

/-- C7 amended: for an origin whose permission record is `allow`, a
subsequent privileged request proceeds immediately to execution with no new
approval round (no `permissionRequest` emission): for `eth_requestAccounts`
no window at all is opened and the engine is called with the routed
`eth_accounts`; for `eth_sendTransaction` the engine is called but a
`/signTransaction` window is opened first, so UI is involved. -/
theorem C7_amended (engine : Engine) (s : BridgeState) (port : Port)
    (id : String) (params : List String)
    (hc : permissionCheck s.allowedPages port.url = true) :
    (stepRequest engine s port id "eth_requestAccounts" params).permissionEmits
      = s.permissionEmits ∧
    (stepRequest engine s port id "eth_requestAccounts" params).windows
      = s.windows ∧
    (stepRequest engine s port id "eth_requestAccounts" params).engineCalls
      = s.engineCalls ++ [("eth_accounts", params)] ∧
    (stepRequest engine s port id "eth_requestAccounts" params).posted
      = s.posted ++ [(port.pid, ⟨id, engine "eth_accounts" params⟩)] ∧
    (stepRequest engine s port id "eth_sendTransaction" params).permissionEmits
      = s.permissionEmits ∧
    (stepRequest engine s port id "eth_sendTransaction" params).windows
      = s.windows ++ ["/signTransaction"] := by
  refine ⟨?_, ?_, ?_, ?_, ?_, ?_⟩ <;>
    simp [stepRequest, completeRequest, internalMethod, hc]

/-- C7 witness: the amended statement instantiated on a state where the dApp
origin is allowed. -/
theorem C7_amended_witness :
    permissionCheck allowedState.allowedPages dappPort.url = true ∧
    ((stepRequest sampleEngine allowedState dappPort "b" "eth_requestAccounts" []).permissionEmits
        = allowedState.permissionEmits ∧
      (stepRequest sampleEngine allowedState dappPort "b" "eth_requestAccounts" []).windows
        = allowedState.windows ∧
      (stepRequest sampleEngine allowedState dappPort "b" "eth_requestAccounts" []).engineCalls
        = allowedState.engineCalls ++ [("eth_accounts", [])] ∧
      (stepRequest sampleEngine allowedState dappPort "b" "eth_requestAccounts" []).posted
        = allowedState.posted ++
            [(dappPort.pid, ⟨"b", sampleEngine "eth_accounts" []⟩)] ∧
      (stepRequest sampleEngine allowedState dappPort "b" "eth_sendTransaction" []).permissionEmits
        = allowedState.permissionEmits ∧
      (stepRequest sampleEngine allowedState dappPort "b" "eth_sendTransaction" []).windows
        = allowedState.windows ++ ["/signTransaction"]) :=
  ⟨by decide,
   C7_amended sampleEngine allowedState dappPort "b" [] (by decide)⟩

/-- C8: a grant or deny decision for an origin with no stored pending
resolver is a complete no-op: both handlers return the state unchanged
(in particular they cannot throw — they are total — and every other
origin's permission record and pending entry is untouched). -/
theorem C8_stale_decision_noop (engine : Engine) (s : BridgeState)
    (perm : PermissionRequest)
    (hp : alookup perm.url s.pending = none) :
    permissionGrant engine s perm = s ∧
    permissionDenyOrRevoke engine s perm = s := by
  constructor <;> simp [permissionGrant, permissionDenyOrRevoke, hp]

/-- C8 witness: a stale grant and a stale deny on a state holding another
origin's allowed record and no pending entry for the decided origin. -/
theorem C8_stale_decision_noop_witness :
    alookup otherPort.url allowedState.pending = none ∧
    (permissionGrant sampleEngine allowedState ⟨otherPort.url, "", "allow"⟩
        = allowedState ∧
      permissionDenyOrRevoke sampleEngine allowedState ⟨otherPort.url, "", "allow"⟩
        = allowedState) :=
  ⟨by decide,
   C8_stale_decision_noop sampleEngine allowedState ⟨otherPort.url, "", "allow"⟩
     (by decide)⟩

/-- C9 counterexample: after a full approval round ending in a grant, the
origin's permission is held only in memory (`permissionCheck` is true, yet
the persistent store is still empty), and after a process restart the
origin is no longer allowed. -/
theorem C9_counterexample :
    permissionCheck (run sampleEngine grantScenario).allowedPages dappPort.url = true ∧
    (run sampleEngine grantScenario).dbPermissions = [] ∧
    permissionCheck (restart (run sampleEngine grantScenario)).allowedPages
      dappPort.url = false := by
  decide

/-- C9 amended: no event sequence ever writes a permission record to the
persistent store (it stays exactly as at service creation, i.e. empty), so
after a restart — which re-initialises the in-memory maps — no origin has a
permission record and none passes `permissionCheck`. -/
theorem C9_amended (engine : Engine) (actions : List Action) (url : String) :
    (run engine actions).dbPermissions = [] ∧
    alookup url (restart (run engine actions)).allowedPages = none ∧
    permissionCheck (restart (run engine actions)).allowedPages url = false := by
  refine ⟨?_, rfl, rfl⟩
  exact foldl_dbPermissions engine actions initB

/-- C10: `permissionCheck url` is true exactly when the stored record for
`url` exists and its state is the string `"allow"`; and in any single
request step the execution engine is called exactly when `permissionCheck`
holds for the requesting origin — any other state (including the `"request"`
state of a round in progress) or an absent record forwards nothing. -/
theorem C10_permissionCheck_iff (pages : List (String × PermissionRequest))
    (url : String) (engine : Engine) (s : BridgeState) (port : Port)
    (id method : String) (params : List String) :
    (permissionCheck pages url = true ↔
      ∃ r, alookup url pages = some r ∧ r.state = "allow") ∧
    (stepRequest engine s port id method params).engineCalls
      = s.engineCalls ++
        (if permissionCheck s.allowedPages port.url
          then [(internalMethod method, params)] else []) := by
  constructor
  · unfold permissionCheck
    cases halookup : alookup url pages with
    | none => simp
    | some r => simp [decide_eq_true_iff]
  · by_cases hc : permissionCheck s.allowedPages port.url = true
    · have hm : ¬ (method = "eth_requestAccounts" ∧
          permissionCheck s.allowedPages port.url = false) := by
        simp [hc]
      simp [stepRequest, hm, completeRequest, hc, apply_ite BridgeState.engineCalls]
    · have hc2 : permissionCheck s.allowedPages port.url = false := by
        simpa using hc
      by_cases hm : method = "eth_requestAccounts"
      · simp [stepRequest, permissionRequest, hm, hc2]
      · simp [stepRequest, hm, completeRequest, hc2]

end ProviderBridge
